import Mathlib

/-!
Verification of the SDK discovery-and-spec-generation engine of
`tools/palmdev-prep.c` (palm_tools_gnu).

The C code is shallowly embedded: C strings become `List Char`, the
filesystem and the recursive directory-tree enumerator become explicit
oracles (`FS`, a `List Char → List (List Char)` function), and the output
`FILE *` written by successive `fprintf` calls becomes a `List Char`
accumulator threaded through the writer functions in exactly the order
the C code emits text.
-/

set_option linter.unusedVariables false
set_option maxRecDepth 100000

namespace PalmdevPrep

/-- ASCII lower-casing, as the C library `tolower` behaves on the inputs the
program feeds it (directory-name bytes). -/
def c_tolower (c : Char) : Char :=
  if 'A' ≤ c ∧ c ≤ 'Z' then Char.ofNat (c.toNat + 32) else c

/-- `matches (prefix, str)` from palmdev-prep.c: true when `str` starts with
the given pattern, folding `str` to lower case before comparing. -/
def c_matches : List Char → List Char → Bool
  | [], _ => true
  | _ :: _, [] => false
  | p :: ps, s :: ss => (c_tolower s == p) && c_matches ps ss

def s_palmos : List Char := "palmos".toList

def s_sdkdash : List Char := "sdk-".toList

/-- The two leading-pattern strips at the start of `canonical_key`:
`if (matches ("palmos", name)) name += 6; if (matches ("sdk-", name)) name += 4;`. -/
def strip_prefixes (name : List Char) : List Char :=
  let n1 := if c_matches s_palmos name then name.drop 6 else name
  if c_matches s_sdkdash n1 then n1.drop 4 else n1

/-- `strrchr (key, c)`, returned as the suffix of `key` that starts at the
last occurrence of `c` (`none` when `c` does not occur). -/
def strrchrSuffix (c : Char) : List Char → Option (List Char)
  | [] => none
  | x :: xs =>
      match strrchrSuffix c xs with
      | some t => some t
      | none => if x = c then some (x :: xs) else none

/-- The tail of `canonical_key`:
`dot = strrchr (key, '.'); if (dot && strcmp (dot, ".0") == 0) *dot = '\0';`.
Writing NUL at the last dot keeps exactly the characters before it. -/
def strip_dot_zero (key : List Char) : List Char :=
  match strrchrSuffix '.' key with
  | some t => if t = ['.', '0'] then key.take (key.length - t.length) else key
  | none => key

/-- `canonical_key` from palmdev-prep.c: strip the leading patterns, then
truncate at the last dot when the text from that dot onward is `".0"`. -/
def canonical_key (name : List Char) : List Char :=
  strip_dot_zero (strip_prefixes name)

/-- `struct root`: the base of an SDK (or generic PalmDev) directory tree.
`key` is `none` for generic roots (the C leaves the field unset there). -/
structure Root where
  rootPath : List Char
  subInc : Option (List Char)
  subLib : Option (List Char)
  key : Option (List Char)
deriving DecidableEq

/-- The filesystem oracle: `is_dir`-style existence tests plus `opendir` /
`readdir` listings (`none` models a directory that cannot be opened). -/
structure FS where
  isDir : List Char → Bool
  listing : List Char → Option (List (List Char))

def s_include : List Char := "include".toList

def s_incs : List Char := "Incs".toList

def s_lib : List Char := "lib".toList

def s_gcclibs : List Char := "GCC Libraries".toList

/-- `"%s/%s"` path formatting. -/
def joinPath (a b : List Char) : List Char := a ++ '/' :: b

/-- `make_root`: record the path and probe the conventional then legacy
headers/libraries subdirectory names, keeping the first that exists. -/
def make_root (fs : FS) (path : List Char) : Root :=
  { rootPath := path
    subInc :=
      if fs.isDir (joinPath path s_include) then some s_include
      else if fs.isDir (joinPath path s_incs) then some s_incs
      else none
    subLib :=
      if fs.isDir (joinPath path s_lib) then some s_lib
      else if fs.isDir (joinPath path s_gcclibs) then some s_gcclibs
      else none
    key := none }

/-- `find (list, key)`: first root in the list whose key agrees (the C walks
the linked list from its head); `NULL` key finds nothing. -/
def find (list : List Root) : Option (List Char) → Option Root
  | none => none
  | some key => list.find? (fun r => r.key == some key)

/-- The two global root collections built by `analyze_palmdev_tree`:
`generic_root_list` grows at the tail (via the kept `last_generic_root`
pointer), `sdk_root_list` grows at the head. -/
structure ScanState where
  generic_root_list : List Root
  sdk_root_list : List Root
deriving DecidableEq

def initial_state : ScanState := ⟨[], []⟩

/-- The body of the `readdir` loop of `analyze_palmdev_tree` for one
directory entry `e`: entries matching `sdk-*` that are directories are
canonicalized, checked against the existing table (first wins), and
inserted at the head of `sdk_root_list` only when headers are present. -/
def scan_entry (fs : FS) (base : List Char) (st : ScanState) (e : List Char) : ScanState :=
  if c_matches s_sdkdash e && fs.isDir (joinPath base e) then
    let key := canonical_key e
    match find st.sdk_root_list (some key) with
    | some _ => st
    | none =>
        let root := make_root fs (joinPath base e)
        if root.subInc.isSome then
          { st with sdk_root_list := { root with key := some key } :: st.sdk_root_list }
        else st
  else st

/-- `analyze_palmdev_tree`: a no-op when the base directory cannot be opened;
otherwise process every entry, then append the base itself to
`generic_root_list` when it has headers or libraries (the C builds the
appended root with a second `make_root` call). -/
def analyze_palmdev_tree (fs : FS) (base : List Char) (st : ScanState) : ScanState :=
  match fs.listing base with
  | none => st
  | some entries =>
      let st1 := entries.foldl (scan_entry fs base) st
      let root := make_root fs base
      if root.subInc.isSome || root.subLib.isSome then
        { st1 with generic_root_list := st1.generic_root_list ++ [make_root fs base] }
      else st1

/-- The sequence of `analyze_palmdev_tree` calls `main` makes, one per scan
directory. -/
def analyze_many (fs : FS) (bases : List (List Char)) (st : ScanState) : ScanState :=
  bases.foldl (fun st b => analyze_palmdev_tree fs b st) st

/-- Instrumented copy of `scan_entry` that also appends each root inserted
into `sdk_root_list` to a chronological log. -/
def scan_entry_rec (fs : FS) (base : List Char) (p : ScanState × List Root)
    (e : List Char) : ScanState × List Root :=
  if c_matches s_sdkdash e && fs.isDir (joinPath base e) then
    let key := canonical_key e
    match find p.1.sdk_root_list (some key) with
    | some _ => p
    | none =>
        let root := make_root fs (joinPath base e)
        if root.subInc.isSome then
          let r := { root with key := some key }
          ({ p.1 with sdk_root_list := r :: p.1.sdk_root_list }, p.2 ++ [r])
        else p
  else p

/-- Instrumented copy of `analyze_palmdev_tree` carrying the insertion log. -/
def analyze_palmdev_tree_rec (fs : FS) (base : List Char)
    (p : ScanState × List Root) : ScanState × List Root :=
  match fs.listing base with
  | none => p
  | some entries =>
      let p1 := entries.foldl (scan_entry_rec fs base) p
      let root := make_root fs base
      if root.subInc.isSome || root.subLib.isSome then
        ({ p1.1 with generic_root_list := p1.1.generic_root_list ++ [make_root fs base] }, p1.2)
      else p1

/-- Instrumented copy of `analyze_many` carrying the insertion log. -/
def analyze_many_rec (fs : FS) (bases : List (List Char))
    (p : ScanState × List Root) : ScanState × List Root :=
  bases.foldl (fun p b => analyze_palmdev_tree_rec fs b p) p

/-- `enum sub_kind { include, lib }`. -/
inductive SubKind
  | inc
  | lib
deriving DecidableEq

/-- `root->sub[kind]`. -/
def sub (r : Root) : SubKind → Option (List Char)
  | .inc => r.subInc
  | .lib => r.subLib

/-- `const char *spec[2] = { "cpp", "link" };`. -/
def spec_name : SubKind → List Char
  | .inc => "cpp".toList
  | .lib => "link".toList

/-- `const char *option[2] = { "-isystem ", "-L" };`. -/
def option_text : SubKind → List Char
  | .inc => "-isystem ".toList
  | .lib => "-L".toList

/-- C `isspace` on the default locale. -/
def c_isspace (c : Char) : Bool :=
  c == ' ' || c == '\t' || c == '\n' || c == '\x0b' || c == '\x0c' || c == '\r'

/-- The escaping loop of `write_dirtree`: a backslash before every space
character of the directory path. -/
def escape_dir : List Char → List Char
  | [] => []
  | c :: cs => if c_isspace c then '\\' :: c :: escape_dir cs else c :: escape_dir cs

/-- `sdk->key` as read by the writers (always set for members of
`sdk_root_list`). -/
def keyD (r : Root) : List Char := r.key.getD []

def s_target_for_lib : List Char := "/m68k-palmos-coff".toList

/-- `write_dirtree`: when the relevant subdirectory exists, walk the tree
oracle `rt` rooted at `prefix/sub[kind]` (plus the fixed target component
when a target was given) and print one escaped option per directory. -/
def write_dirtree (rt : List Char → List (List Char)) (f : List Char) (root : Root)
    (target : Option (List Char)) (kind : SubKind) : List Char :=
  match sub root kind with
  | none => f
  | some s =>
      let target_for_lib := if target.isSome then s_target_for_lib else []
      (rt (joinPath root.rootPath (s ++ target_for_lib))).foldl
        (fun f d => f ++ ' ' :: (option_text kind ++ escape_dir d)) f

def s_sdk_us : List Char := "_sdk_".toList

def s_colon_nl : List Char := ":\n".toList

def s_nlnl : List Char := "\n\n".toList

/-- `write_sdk_spec`: one named block `*<spec>_sdk_<key>:` holding the
root's directory list, terminated by a blank line. -/
def write_sdk_spec (rt : List Char → List (List Char)) (f : List Char) (sdk : Root)
    (target : Option (List Char)) (kind : SubKind) : List Char :=
  let f := f ++ '*' :: (spec_name kind ++ s_sdk_us ++ keyD sdk ++ s_colon_nl)
  let f := write_dirtree rt f sdk target kind
  f ++ s_nlnl

/-- `strspn (key, "0123456789") == strlen (key)`: every character of the key
is a decimal digit. -/
def all_digits (s : List Char) : Bool := s.all (fun c => '0' ≤ c && c ≤ '9')

def s_umbrella_mid : List Char := ":\n+ %\x7b!palmos-none:".toList

def s_guard_open : List Char := " %\x7bpalmos".toList

def s_guard_mid : List Char := ":%(".toList

def s_guard_mid0 : List Char := ".0:%(".toList

def s_guard_close : List Char := ")\x7d".toList

def s_default_open : List Char := " %\x7b!palmos*: %(".toList

def s_close : List Char := "\x7d\n\n".toList

/-- `write_main_spec`: the umbrella `*cpp:` / `*link:` block, emitted in the
C order: header, the generic roots' inline directory lists, one guard group
per SDK (with an extra `.0` guard for all-digit keys), the default-SDK
fallback, and the closing brace. -/
def write_main_spec (rt : List Char → List (List Char)) (generic sdks : List Root)
    (f : List Char) (target : Option (List Char)) (default_sdk : Option Root)
    (kind : SubKind) : List Char :=
  let f := f ++ '*' :: (spec_name kind ++ s_umbrella_mid)
  let f := generic.foldl (fun f r => write_dirtree rt f r target kind) f
  let f := sdks.foldl (fun f sdk =>
      let f := f ++ s_guard_open ++ keyD sdk ++ s_guard_mid
                 ++ spec_name kind ++ s_sdk_us ++ keyD sdk ++ s_guard_close
      if all_digits (keyD sdk) then
        f ++ s_guard_open ++ keyD sdk ++ s_guard_mid0
          ++ spec_name kind ++ s_sdk_us ++ keyD sdk ++ s_guard_close
      else f) f
  let f := match default_sdk with
    | some d => f ++ s_default_open ++ spec_name kind ++ s_sdk_us ++ keyD d ++ s_guard_close
    | none => f
  f ++ s_close

/-- `write_specs`: the per-SDK named blocks (headers then libraries for each
SDK, in `sdk_root_list` order), then the two umbrella blocks. -/
def write_specs (rt : List Char → List (List Char)) (generic sdks : List Root)
    (f : List Char) (target : List Char) (default_sdk : Option Root) : List Char :=
  let f := sdks.foldl (fun f sdk =>
      let f := write_sdk_spec rt f sdk none .inc
      write_sdk_spec rt f sdk (some target) .lib) f
  let f := write_main_spec rt generic sdks f none default_sdk .inc
  write_main_spec rt generic sdks f (some target) default_sdk .lib

/-- C `strcmp`, reduced to its sign (the keys compared are ASCII, so plain
and unsigned comparison agree). -/
def strcmp : List Char → List Char → Int
  | [], [] => 0
  | [], _ :: _ => -1
  | _ :: _, [] => 1
  | a :: as, b :: bs =>
      if a.toNat < b.toNat then -1
      else if b.toNat < a.toNat then 1
      else strcmp as bs

/-- The automatic-selection loop of `main`: start from the list head and
replace the candidate whenever a strictly `strcmp`-greater key appears. -/
def select_highest (sdks : List Root) : Option Root :=
  match sdks with
  | [] => none
  | first :: _ =>
      some (sdks.foldl (fun best sdk =>
        if strcmp (keyD sdk) (keyD best) > 0 then sdk else best) first)

/-- The default-SDK resolution of `main`: an explicitly requested name is
canonicalized and looked up; on a miss a warning is issued (second
component `true`) and selection falls through to the automatic choice,
which yields nothing when the collection is empty. -/
def choose_default (sdks : List Root) (requested : Option (List Char)) :
    Option Root × Bool :=
  match requested with
  | some name =>
      match find sdks (some (canonical_key name)) with
      | some r => (some r, false)
      | none => (select_highest sdks, true)
  | none => (select_highest sdks, false)

/-! Text of the parts of the umbrella block, used to state how the output
of `write_main_spec` decomposes. -/

/-- The directory list a root contributes, written from an empty file. -/
def dirtree_text (rt : List Char → List (List Char)) (root : Root)
    (target : Option (List Char)) (kind : SubKind) : List Char :=
  write_dirtree rt [] root target kind

/-- The guard group one SDK root contributes to the umbrella block: the
reference guarded by its canonical key, plus the `.0` compatibility guard
when the key is all digits. -/
def sdk_guard_text (kind : SubKind) (sdk : Root) : List Char :=
  s_guard_open ++ keyD sdk ++ s_guard_mid ++ spec_name kind ++ s_sdk_us
    ++ keyD sdk ++ s_guard_close
  ++ (if all_digits (keyD sdk) then
        s_guard_open ++ keyD sdk ++ s_guard_mid0 ++ spec_name kind ++ s_sdk_us
          ++ keyD sdk ++ s_guard_close
      else [])

/-- The default-SDK fallback reference, when a default was resolved. -/
def default_guard_text (kind : SubKind) : Option Root → List Char
  | some d => s_default_open ++ spec_name kind ++ s_sdk_us ++ keyD d ++ s_guard_close
  | none => []

/-- The opening of the umbrella block. -/
def umbrella_header (kind : SubKind) : List Char :=
  '*' :: (spec_name kind ++ s_umbrella_mid)

/-- The pair of named blocks one SDK root contributes in `write_specs`. -/
def sdk_block_text (rt : List Char → List (List Char)) (sdk : Root)
    (target : List Char) : List Char :=
  write_sdk_spec rt [] sdk none .inc ++ write_sdk_spec rt [] sdk (some target) .lib

/-! Concrete fixtures used to instantiate the theorems. -/

def tgt : List Char := "m68k-palmos-coff".toList

def pA : List Char := "/a".toList

def pB : List Char := "/b".toList

def e_sdk5 : List Char := "sdk-5".toList

def pathA5 : List Char := "/a/sdk-5".toList

def pathB5 : List Char := "/b/sdk-5".toList

def k5 : List Char := "5".toList

/-- Two scan directories, each holding an `sdk-5` with headers. -/
def fsC1 : FS :=
  { isDir := fun p =>
      p = pathA5 || p = joinPath pathA5 s_include ||
      p = pathB5 || p = joinPath pathB5 s_include
    listing := fun p =>
      if p = pA then some [e_sdk5]
      else if p = pB then some [e_sdk5]
      else none }

/-- A degenerate tree enumerator: each opened directory yields itself. -/
def rtC1 : List Char → List (List Char) := fun p => [p]

def stC1 : ScanState := analyze_many fsC1 [pA, pB] initial_state

def outC1 : List Char :=
  write_specs rtC1 stC1.generic_root_list stC1.sdk_root_list [] tgt
    (choose_default stC1.sdk_root_list none).1

/-- The SDK root the first scan of `fsC1` stores. -/
def rootA5 : Root := ⟨pathA5, some s_include, none, some k5⟩

def pP : List Char := "/p".toList

def e_sdk3 : List Char := "sdk-3".toList

def pathP3 : List Char := "/p/sdk-3".toList

/-- One scan directory holding an `sdk-3` that has a `lib` subdirectory but
no headers subdirectory. -/
def fsC5 : FS :=
  { isDir := fun p => p = pathP3 || p = joinPath pathP3 s_lib
    listing := fun p => if p = pP then some [e_sdk3] else none }

def rtC5 : List Char → List (List Char) := fun p => [p]

def stC5 : ScanState := analyze_many fsC5 [pP] initial_state

def outC5 : List Char :=
  write_specs rtC5 stC5.generic_root_list stC5.sdk_root_list [] tgt
    (choose_default stC5.sdk_root_list none).1

def k3 : List Char := "3".toList

def k10 : List Char := "10".toList

def k9 : List Char := "9".toList

/-- An SDK root with the given path and canonical key. -/
def mk_sdk (p k : List Char) : Root := ⟨p, some s_include, none, some k⟩

/-- A collection whose canonical keys are 3, 10 and 9. -/
def demo_sdks : List Root :=
  [mk_sdk (joinPath pP (s_sdkdash ++ k3)) k3,
   mk_sdk (joinPath pP (s_sdkdash ++ k10)) k10,
   mk_sdk (joinPath pP (s_sdkdash ++ k9)) k9]

def req_missing : List Char := "nosuchsdk".toList

def k35 : List Char := "35".toList

def k3dot5 : List Char := "3.5".toList

def c2_input : List Char := "sdk-4.0.0".toList

def c2_claimed : List Char := "4.0.0".toList

def c2_actual : List Char := "4.0".toList

def c3_input : List Char := "4.0.0".toList

def c3_wit : List Char := "sdk-3.5".toList

/-- A filesystem on which no directory can be opened. -/
def fs_none : FS := ⟨fun _ => false, fun _ => none⟩

/-- A second all-empty filesystem, used for the path-length observation. -/
def fsC9 : FS := ⟨fun _ => false, fun _ => none⟩

def p_absent : List Char := "/nonexistent".toList

end PalmdevPrep

namespace PalmdevPrep

/-! ### Facts about the key canonicalizer -/

/-- The suffix returned by `strrchr` is a suffix of the scanned string. -/
lemma strrchrSuffix_suffix (c : Char) (s : List Char) :
    ∀ t, strrchrSuffix c s = some t → t <:+ s := by
  induction s with
  | nil => intro t h; simp [strrchrSuffix] at h
  | cons x xs ih =>
      intro t h
      cases hx : strrchrSuffix c xs with
      | some u =>
          simp only [strrchrSuffix, hx] at h
          injection h with h
          subst h
          exact (ih u hx).trans (List.suffix_cons x xs)
      | none =>
          simp only [strrchrSuffix, hx] at h
          split at h
          · injection h with h
            subst h
            exact List.suffix_refl _
          · cases h

/-- When a string ends in `".0"`, the last dot is exactly the one of that
suffix, so `strrchr` returns `".0"` itself. -/
lemma strrchrSuffix_of_dot_zero (s : List Char) (h : ['.', '0'] <:+ s) :
    strrchrSuffix '.' s = some ['.', '0'] := by
  induction s with
  | nil => simp at h
  | cons x xs ih =>
      rw [List.suffix_cons_iff] at h
      cases h with
      | inl h =>
          injection h with h1 h2
          subst h1; subst h2
          decide
      | inr h => simp only [strrchrSuffix, ih h]

/-- The `strrchr`-based truncation of `canonical_key` is exactly: remove a
single trailing `".0"` when present, do nothing otherwise. -/
lemma strip_dot_zero_eq (s : List Char) :
    strip_dot_zero s = if ['.', '0'] <:+ s then s.take (s.length - 2) else s := by
  by_cases h : ['.', '0'] <:+ s
  · simp [strip_dot_zero, strrchrSuffix_of_dot_zero s h, h]
  · rw [if_neg h]
    cases hx : strrchrSuffix '.' s with
    | none => simp [strip_dot_zero, hx]
    | some t =>
        have ht := strrchrSuffix_suffix '.' s t hx
        by_cases h2 : t = ['.', '0']
        · subst h2; exact absurd ht h
        · simp [strip_dot_zero, hx, h2]

/-- C2 counterexample: the claim states `canonical_key "sdk-4.0.0"` equals
`"4.0.0"`, but `strrchr` finds the trailing `".0"` of `"4.0.0"` and the code
strips it, yielding `"4.0"`. -/
theorem canonical_key_sdk400_counterexample :
    ¬ (canonical_key c2_input = c2_claimed) := by decide

/-- C2 (amended): `canonical_key` strips exactly one trailing literal `".0"`
suffix when present, and never an interior one; a single strip is applied to
`"sdk-4.0.0"`, giving `"4.0"` (not a recursive normalization to `"4"`). -/
theorem canonical_key_single_trailing_strip (name : List Char) :
    canonical_key name
      = (if ['.', '0'] <:+ strip_prefixes name
         then (strip_prefixes name).take ((strip_prefixes name).length - 2)
         else strip_prefixes name)
    ∧ canonical_key c2_input = c2_actual := by
  refine ⟨?_, by decide⟩
  rw [canonical_key, strip_dot_zero_eq]

/-- C3 counterexample: `canonical_key` is not idempotent; on `"4.0.0"` the
first application yields `"4.0"` and a second application strips again to
`"4"`. -/
theorem canonical_key_not_idempotent :
    ¬ (canonical_key (canonical_key c3_input) = canonical_key c3_input) := by decide

/-- C3 (amended): `canonical_key` is idempotent on every input whose
canonical key neither starts (case-insensitively) with `"palmos"` or
`"sdk-"` nor ends with the literal `".0"`; in full generality idempotence
fails, as `canonical_key_not_idempotent` shows. -/
theorem canonical_key_idempotent_on_stable (d : List Char)
    (h1 : c_matches s_palmos (canonical_key d) = false)
    (h2 : c_matches s_sdkdash (canonical_key d) = false)
    (h3 : ¬ (['.', '0'] <:+ canonical_key d)) :
    canonical_key (canonical_key d) = canonical_key d := by
  have hp : strip_prefixes (canonical_key d) = canonical_key d := by
    simp [strip_prefixes, h1, h2]
  rw [canonical_key, hp, strip_dot_zero_eq, if_neg h3]

/-- Witness for C3's amended theorem at the input `"sdk-3.5"`. -/
theorem canonical_key_idempotent_on_stable_witness :
    (c_matches s_palmos (canonical_key c3_wit) = false
      ∧ c_matches s_sdkdash (canonical_key c3_wit) = false
      ∧ ¬ (['.', '0'] <:+ canonical_key c3_wit))
    ∧ canonical_key (canonical_key c3_wit) = canonical_key c3_wit :=
  ⟨⟨by decide, by decide, by decide⟩,
   canonical_key_idempotent_on_stable c3_wit (by decide) (by decide) (by decide)⟩

/-! ### The ordinal string order used by automatic default selection -/

lemma strcmp_self (a : List Char) : strcmp a a = 0 := by
  induction a with
  | nil => rfl
  | cons x xs ih => simp [strcmp, ih]

lemma strcmp_cases (a b : List Char) : strcmp a b = -1 ∨ strcmp a b = 0 ∨ strcmp a b = 1 := by
  induction a generalizing b with
  | nil => cases b <;> simp [strcmp]
  | cons x xs ih =>
      cases b with
      | nil => simp [strcmp]
      | cons y ys =>
          by_cases h1 : x.toNat < y.toNat
          · simp [strcmp, h1]
          · by_cases h2 : y.toNat < x.toNat
            · simp [strcmp, h1, h2]
            · simpa [strcmp, h1, h2] using ih ys

lemma strcmp_swap (a : List Char) : ∀ b, strcmp b a = - strcmp a b := by
  induction a with
  | nil => intro b; cases b <;> simp [strcmp]
  | cons x xs ih =>
      intro b
      cases b with
      | nil => simp [strcmp]
      | cons y ys =>
          by_cases h1 : x.toNat < y.toNat
          · have h2 : ¬ y.toNat < x.toNat := by omega
            simp [strcmp, h1, h2]
          · by_cases h2 : y.toNat < x.toNat
            · simp [strcmp, h1, h2]
            · simp [strcmp, h1, h2, ih ys]

lemma strcmp_le_of_gt {a b : List Char} (h : strcmp a b > 0) : strcmp b a ≤ 0 := by
  rw [strcmp_swap a b]; omega

lemma strcmp_le_of_not_gt {a b : List Char} (h : ¬ strcmp a b > 0) : strcmp a b ≤ 0 := by
  rcases strcmp_cases a b with h' | h' | h' <;> omega

lemma strcmp_le_trans : ∀ (a b c : List Char),
    strcmp a b ≤ 0 → strcmp b c ≤ 0 → strcmp a c ≤ 0 := by
  intro a
  induction a with
  | nil => intro b c _ _; cases c <;> simp [strcmp]
  | cons x xs ih =>
      intro b c hab hbc
      cases b with
      | nil => simp [strcmp] at hab
      | cons y ys =>
          cases c with
          | nil => simp [strcmp] at hbc
          | cons z zs =>
              simp only [strcmp] at hab hbc ⊢
              by_cases hxy : x.toNat < y.toNat
              · by_cases hyz : y.toNat < z.toNat
                · have hxz : x.toNat < z.toNat := by omega
                  simp [hxz]
                · by_cases hzy : z.toNat < y.toNat
                  · simp [hyz, hzy] at hbc
                  · have hxz : x.toNat < z.toNat := by omega
                    simp [hxz]
              · by_cases hyx : y.toNat < x.toNat
                · simp [hxy, hyx] at hab
                · by_cases hyz : y.toNat < z.toNat
                  · have hxz : x.toNat < z.toNat := by omega
                    simp [hxz]
                  · by_cases hzy : z.toNat < y.toNat
                    · simp [hyz, hzy] at hbc
                    · have h1 : ¬ x.toNat < z.toNat := by omega
                      have h2 : ¬ z.toNat < x.toNat := by omega
                      simp only [h1, h2, if_false]
                      exact ih ys zs (by simpa [hxy, hyx] using hab)
                        (by simpa [hyz, hzy] using hbc)

/-- The selection loop's result is drawn from its candidates and its key is
`strcmp`-maximal among the start candidate and the scanned list. -/
lemma select_fold_spec (l : List Root) :
    ∀ best : Root,
      (l.foldl (fun best sdk => if strcmp (keyD sdk) (keyD best) > 0 then sdk else best) best
          = best
        ∨ l.foldl (fun best sdk => if strcmp (keyD sdk) (keyD best) > 0 then sdk else best) best
          ∈ l)
      ∧ strcmp (keyD best)
          (keyD (l.foldl (fun best sdk => if strcmp (keyD sdk) (keyD best) > 0 then sdk else best)
            best)) ≤ 0
      ∧ ∀ s ∈ l,
          strcmp (keyD s)
            (keyD (l.foldl (fun best sdk => if strcmp (keyD sdk) (keyD best) > 0 then sdk else best)
              best)) ≤ 0 := by
  induction l with
  | nil =>
      intro best
      refine ⟨Or.inl rfl, by simp [strcmp_self], by simp⟩
  | cons x xs ih =>
      intro best
      obtain ⟨ihm, ihbest, ihall⟩ :=
        ih (if strcmp (keyD x) (keyD best) > 0 then x else best)
      have hbb' : strcmp (keyD best)
          (keyD (if strcmp (keyD x) (keyD best) > 0 then x else best)) ≤ 0 := by
        split
        · exact strcmp_le_of_gt ‹_›
        · simp [strcmp_self]
      have hxb' : strcmp (keyD x)
          (keyD (if strcmp (keyD x) (keyD best) > 0 then x else best)) ≤ 0 := by
        split
        · simp [strcmp_self]
        · exact strcmp_le_of_not_gt ‹_›
      refine ⟨?_, ?_, ?_⟩
      · rw [List.foldl_cons]
        rcases ihm with hm | hm
        · rw [hm]
          split
          · exact Or.inr (List.mem_cons_self x xs)
          · exact Or.inl rfl
        · exact Or.inr (List.mem_cons_of_mem x hm)
      · rw [List.foldl_cons]
        exact strcmp_le_trans _ _ _ hbb' ihbest
      · intro s hs
        rw [List.foldl_cons]
        rcases List.mem_cons.mp hs with hsx | hsxs
        · subst hsx
          exact strcmp_le_trans _ _ _ hxb' ihbest
        · exact ihall s hsxs

/-- C4: with a requested identifier that is not in the collection, the
selector warns and falls through to automatic selection; automatic selection
returns nothing on an empty collection, and otherwise a member of the
collection whose canonical key is `strcmp`-maximal; in particular keys
3, 10 and 9 select 9 (ordinal comparison, not numeric). -/
theorem default_sdk_selection (sdks : List Root) (req : List Char)
    (hmiss : find sdks (some (canonical_key req)) = none) :
    choose_default sdks (some req) = (select_highest sdks, true)
    ∧ choose_default sdks none = (select_highest sdks, false)
    ∧ (sdks = [] → select_highest sdks = none)
    ∧ (∀ r, select_highest sdks = some r →
        r ∈ sdks ∧ ∀ s ∈ sdks, strcmp (keyD s) (keyD r) ≤ 0)
    ∧ (select_highest demo_sdks).map keyD = some k9 := by
  refine ⟨by simp [choose_default, hmiss], rfl, ?_, ?_, by decide⟩
  · intro h; subst h; rfl
  · intro r hr
    cases sdks with
    | nil => cases hr
    | cons first rest =>
        simp only [select_highest, Option.some.injEq] at hr
        obtain ⟨hm, _, hall⟩ := select_fold_spec (first :: rest) first
        subst hr
        refine ⟨?_, hall⟩
        rcases hm with hm | hm
        · rw [hm]; exact List.mem_cons_self first rest
        · exact hm

/-- Witness for C4 on the 3/10/9 demo collection with a request that is not
present. -/
theorem default_sdk_selection_witness :
    find demo_sdks (some (canonical_key req_missing)) = none
    ∧ (choose_default demo_sdks (some req_missing) = (select_highest demo_sdks, true)
        ∧ choose_default demo_sdks none = (select_highest demo_sdks, false)
        ∧ (demo_sdks = [] → select_highest demo_sdks = none)
        ∧ (∀ r, select_highest demo_sdks = some r →
            r ∈ demo_sdks ∧ ∀ s ∈ demo_sdks, strcmp (keyD s) (keyD r) ≤ 0)
        ∧ (select_highest demo_sdks).map keyD = some k9) :=
  ⟨by decide, default_sdk_selection demo_sdks req_missing (by decide)⟩

/-! ### The tree analyzer on unopenable directories -/

/-- C8: when the base directory cannot be opened, `analyze_palmdev_tree`
returns without signalling anything and leaves both root collections
exactly as they were. -/
theorem analyze_noop_on_unopenable (fs : FS) (base : List Char) (st : ScanState)
    (h : fs.listing base = none) :
    analyze_palmdev_tree fs base st = st := by
  simp only [analyze_palmdev_tree, h]

/-- Witness for C8 on a filesystem with no openable directory. -/
theorem analyze_noop_on_unopenable_witness :
    fs_none.listing p_absent = none
    ∧ analyze_palmdev_tree fs_none p_absent initial_state = initial_state :=
  ⟨rfl, analyze_noop_on_unopenable fs_none p_absent initial_state rfl⟩

/-! ### First-wins override resolution -/

/-- Processing one directory entry can neither replace nor duplicate an
already-bound canonical key: the lookup result and the whole sublist of
roots carrying that key are unchanged. -/
lemma scan_entry_preserves_bound (fs : FS) (base : List Char) (st : ScanState)
    (e k : List Char) (r : Root)
    (h : find st.sdk_root_list (some k) = some r) :
    find (scan_entry fs base st e).sdk_root_list (some k) = some r
    ∧ (scan_entry fs base st e).sdk_root_list.filter (fun x => x.key == some k)
        = st.sdk_root_list.filter (fun x => x.key == some k) := by
  simp only [scan_entry]
  by_cases hc : (c_matches s_sdkdash e && fs.isDir (joinPath base e)) = true
  case neg => simp [hc, h]
  simp only [hc, if_true]
  cases hf : find st.sdk_root_list (some (canonical_key e)) with
  | some _ => exact ⟨h, rfl⟩
  | none =>
      by_cases hi : (make_root fs (joinPath base e)).subInc.isSome = true
      case neg => simp [hi, h]
      have hne : canonical_key e ≠ k := by
        intro he
        rw [he, h] at hf
        cases hf
      simp only [hi, if_true]
      have hb : (canonical_key e == k) = false := by simp [hne]
      constructor
      · simp only [find, List.find?_cons] at h ⊢
        simp [hb, h]
      · simp only [List.filter_cons]
        simp [hb]

/-- `scan_entry_preserves_bound`, folded over a whole directory listing. -/
lemma entries_preserve_bound (fs : FS) (base : List Char) (entries : List (List Char)) :
    ∀ (st : ScanState) (k : List Char) (r : Root),
      find st.sdk_root_list (some k) = some r →
      find (entries.foldl (scan_entry fs base) st).sdk_root_list (some k) = some r
      ∧ (entries.foldl (scan_entry fs base) st).sdk_root_list.filter
          (fun x => x.key == some k)
        = st.sdk_root_list.filter (fun x => x.key == some k) := by
  induction entries with
  | nil => intro st k r h; exact ⟨h, rfl⟩
  | cons e es ih =>
      intro st k r h
      obtain ⟨h1, h2⟩ := scan_entry_preserves_bound fs base st e k r h
      obtain ⟨h3, h4⟩ := ih (scan_entry fs base st e) k r h1
      exact ⟨h3, h4.trans h2⟩

/-- One whole `analyze_palmdev_tree` call can neither replace nor duplicate
an already-bound canonical key. -/
lemma analyze_preserves_bound (fs : FS) (base : List Char) (st : ScanState)
    (k : List Char) (r : Root)
    (h : find st.sdk_root_list (some k) = some r) :
    find (analyze_palmdev_tree fs base st).sdk_root_list (some k) = some r
    ∧ (analyze_palmdev_tree fs base st).sdk_root_list.filter (fun x => x.key == some k)
        = st.sdk_root_list.filter (fun x => x.key == some k) := by
  simp only [analyze_palmdev_tree]
  cases hl : fs.listing base with
  | none => exact ⟨h, rfl⟩
  | some entries =>
      obtain ⟨h1, h2⟩ := entries_preserve_bound fs base entries st k r h
      by_cases hg : ((make_root fs base).subInc.isSome
          || (make_root fs base).subLib.isSome) = true
      · simp [hg, h1, h2]
      · simp [hg, h1, h2]

/-- C1: once a canonical key is bound in the SDK collection, every later
scan leaves the bound root in place: lookups still return the first-stored
root and no root with that key is added or replaced.  On the concrete run
of `fsC1` — two scan directories, each holding an `sdk-5` — the collection
holds exactly the first directory's root and the second directory's path
occurs nowhere in the generated spec text (in particular in no
`-isystem`/`-L` option), while the first directory's path does occur. -/
theorem first_scanned_sdk_wins (fs : FS) (bases : List (List Char)) (st : ScanState)
    (k : List Char) (r : Root)
    (h : find st.sdk_root_list (some k) = some r) :
    find (analyze_many fs bases st).sdk_root_list (some k) = some r
    ∧ (analyze_many fs bases st).sdk_root_list.filter (fun x => x.key == some k)
        = st.sdk_root_list.filter (fun x => x.key == some k)
    ∧ (stC1.sdk_root_list = [rootA5]
        ∧ ¬ (pathB5 <:+: outC1)
        ∧ pathA5 <:+: outC1) := by
  have main : ∀ (bs : List (List Char)) (st : ScanState),
      find st.sdk_root_list (some k) = some r →
      find (analyze_many fs bs st).sdk_root_list (some k) = some r
      ∧ (analyze_many fs bs st).sdk_root_list.filter (fun x => x.key == some k)
          = st.sdk_root_list.filter (fun x => x.key == some k) := by
    intro bs
    induction bs with
    | nil => intro st h; exact ⟨h, rfl⟩
    | cons b bs ih =>
        intro st h
        simp only [analyze_many, List.foldl_cons] at *
        obtain ⟨h1, h2⟩ := analyze_preserves_bound fs b st k r h
        obtain ⟨h3, h4⟩ := ih (analyze_palmdev_tree fs b st) h1
        exact ⟨h3, h4.trans h2⟩
  obtain ⟨h1, h2⟩ := main bases st h
  exact ⟨h1, h2, by decide, by decide, by decide⟩

/-- Witness for C1: after scanning the first directory of `fsC1`, key 5 is
bound to that directory's root; scanning the second directory preserves it. -/
theorem first_scanned_sdk_wins_witness :
    find (analyze_palmdev_tree fsC1 pA initial_state).sdk_root_list (some k5) = some rootA5
    ∧ (find (analyze_many fsC1 [pB] (analyze_palmdev_tree fsC1 pA initial_state)).sdk_root_list
          (some k5) = some rootA5
        ∧ (analyze_many fsC1 [pB]
              (analyze_palmdev_tree fsC1 pA initial_state)).sdk_root_list.filter
              (fun x => x.key == some k5)
            = (analyze_palmdev_tree fsC1 pA initial_state).sdk_root_list.filter
              (fun x => x.key == some k5)
        ∧ (stC1.sdk_root_list = [rootA5]
            ∧ ¬ (pathB5 <:+: outC1)
            ∧ pathA5 <:+: outC1)) :=
  ⟨by decide,
   first_scanned_sdk_wins fsC1 [pB] (analyze_palmdev_tree fsC1 pA initial_state) k5 rootA5
     (by decide)⟩

/-! ### Headers are mandatory for SDK retention -/

/-- `scan_entry` keeps the invariant that every stored SDK root has a
headers subdirectory. -/
lemma scan_entry_headers (fs : FS) (base : List Char) (st : ScanState) (e : List Char)
    (h : ∀ r ∈ st.sdk_root_list, r.subInc.isSome = true) :
    ∀ r ∈ (scan_entry fs base st e).sdk_root_list, r.subInc.isSome = true := by
  simp only [scan_entry]
  by_cases hc : (c_matches s_sdkdash e && fs.isDir (joinPath base e)) = true
  case neg => simpa [hc] using h
  simp only [hc, if_true]
  cases hf : find st.sdk_root_list (some (canonical_key e)) with
  | some _ => exact h
  | none =>
      by_cases hi : (make_root fs (joinPath base e)).subInc.isSome = true
      · simp only [hi, if_true]
        intro r hr
        rcases List.mem_cons.mp hr with hr | hr
        · subst hr; exact hi
        · exact h r hr
      · simpa [hi] using h

/-- The headers invariant holds after a whole `analyze_palmdev_tree` call. -/
lemma analyze_headers (fs : FS) (base : List Char) (st : ScanState)
    (h : ∀ r ∈ st.sdk_root_list, r.subInc.isSome = true) :
    ∀ r ∈ (analyze_palmdev_tree fs base st).sdk_root_list, r.subInc.isSome = true := by
  simp only [analyze_palmdev_tree]
  cases hl : fs.listing base with
  | none => exact h
  | some entries =>
      have hfold : ∀ (es : List (List Char)) (st : ScanState),
          (∀ r ∈ st.sdk_root_list, r.subInc.isSome = true) →
          ∀ r ∈ (es.foldl (scan_entry fs base) st).sdk_root_list, r.subInc.isSome = true := by
        intro es
        induction es with
        | nil => intro st h; exact h
        | cons e es ih =>
            intro st h
            exact ih (scan_entry fs base st e) (scan_entry_headers fs base st e h)
      by_cases hg : ((make_root fs base).subInc.isSome
          || (make_root fs base).subLib.isSome) = true
      · simpa [hg] using hfold entries st h
      · simpa [hg] using hfold entries st h

/-- C5: an `sdk-*` entry whose constructed root has no headers subdirectory
is dropped: processing it leaves the state untouched, every root ever stored
in the SDK collection has a headers subdirectory, and on the concrete run of
`fsC5` — an `sdk-3` with `lib` but no `include`/`Incs` — the SDK collection
stays empty and the directory's path occurs nowhere in the generated text. -/
theorem sdk_retained_only_with_headers (fs : FS) (bases : List (List Char))
    (base e : List Char) (st : ScanState)
    (hnone : (make_root fs (joinPath base e)).subInc = none) :
    scan_entry fs base st e = st
    ∧ (∀ r ∈ (analyze_many fs bases initial_state).sdk_root_list, r.subInc.isSome = true)
    ∧ (stC5.sdk_root_list = [] ∧ ¬ (pathP3 <:+: outC5)) := by
  refine ⟨?_, ?_, by decide, by decide⟩
  · simp only [scan_entry]
    by_cases hc : (c_matches s_sdkdash e && fs.isDir (joinPath base e)) = true
    case neg => simp [hc]
    simp only [hc, if_true]
    cases hf : find st.sdk_root_list (some (canonical_key e)) with
    | some _ => rfl
    | none => simp [hnone]
  · have : ∀ (bs : List (List Char)) (st : ScanState),
        (∀ r ∈ st.sdk_root_list, r.subInc.isSome = true) →
        ∀ r ∈ (analyze_many fs bs st).sdk_root_list, r.subInc.isSome = true := by
      intro bs
      induction bs with
      | nil => intro st h; exact h
      | cons b bs ih =>
          intro st h
          exact ih (analyze_palmdev_tree fs b st) (analyze_headers fs b st h)
    exact this bases initial_state (by simp [initial_state])

/-- Witness for C5 at the `sdk-3` of `fsC5`, which has `lib` but no headers
subdirectory. -/
theorem sdk_retained_only_with_headers_witness :
    (make_root fsC5 (joinPath pP e_sdk3)).subInc = none
    ∧ (scan_entry fsC5 pP initial_state e_sdk3 = initial_state
        ∧ (∀ r ∈ (analyze_many fsC5 [pP] initial_state).sdk_root_list,
            r.subInc.isSome = true)
        ∧ (stC5.sdk_root_list = [] ∧ ¬ (pathP3 <:+: outC5))) :=
  ⟨by decide,
   sdk_retained_only_with_headers fsC5 [pP] pP e_sdk3 initial_state (by decide)⟩

/-! ### Structure of the emitted spec text -/

lemma foldl_emit_join {α : Type} (g : α → List Char) (l : List α) :
    ∀ f : List Char, l.foldl (fun f x => f ++ g x) f = f ++ (l.map g).flatten := by
  induction l with
  | nil => intro f; simp
  | cons x xs ih =>
      intro f
      simp only [List.foldl_cons, List.map_cons, List.flatten_cons]
      rw [ih]
      simp [List.append_assoc]

/-- `write_dirtree` only ever appends to the file it is given. -/
lemma write_dirtree_append (rt : List Char → List (List Char)) (f : List Char)
    (root : Root) (target : Option (List Char)) (kind : SubKind) :
    write_dirtree rt f root target kind = f ++ dirtree_text rt root target kind := by
  rw [dirtree_text]
  cases h : sub root kind with
  | none => simp [write_dirtree, h]
  | some s =>
      simp only [write_dirtree, h]
      rw [foldl_emit_join (fun d => ' ' :: (option_text kind ++ escape_dir d)),
        foldl_emit_join (fun d => ' ' :: (option_text kind ++ escape_dir d))]
      simp

/-- The generic roots' inline expansion, as a join in scan order. -/
lemma generic_dirtree_fold (rt : List Char → List (List Char))
    (target : Option (List Char)) (kind : SubKind) (l : List Root) :
    ∀ f : List Char,
      l.foldl (fun f r => write_dirtree rt f r target kind) f
        = f ++ (l.map (fun r => dirtree_text rt r target kind)).flatten := by
  induction l with
  | nil => intro f; simp
  | cons x xs ih =>
      intro f
      simp only [List.foldl_cons, List.map_cons, List.flatten_cons]
      rw [ih, write_dirtree_append]
      simp [List.append_assoc]

/-- The per-SDK guard groups, as a join in `sdk_root_list` order. -/
lemma sdk_guard_fold (kind : SubKind) (l : List Root) :
    ∀ f : List Char,
      l.foldl (fun f sdk =>
        let f := f ++ s_guard_open ++ keyD sdk ++ s_guard_mid
                   ++ spec_name kind ++ s_sdk_us ++ keyD sdk ++ s_guard_close
        if all_digits (keyD sdk) then
          f ++ s_guard_open ++ keyD sdk ++ s_guard_mid0
            ++ spec_name kind ++ s_sdk_us ++ keyD sdk ++ s_guard_close
        else f) f
      = f ++ (l.map (sdk_guard_text kind)).flatten := by
  induction l with
  | nil => intro f; simp
  | cons x xs ih =>
      intro f
      simp only [List.foldl_cons, List.map_cons, List.flatten_cons]
      rw [ih]
      by_cases hd : all_digits (keyD x) = true <;>
        simp [sdk_guard_text, hd, List.append_assoc]

/-- How one umbrella block decomposes: header, generic roots in scan order,
per-SDK guard groups in collection order, default fallback, closing brace. -/
lemma write_main_spec_decomp (rt : List Char → List (List Char))
    (generic sdks : List Root) (f : List Char) (target : Option (List Char))
    (dflt : Option Root) (kind : SubKind) :
    write_main_spec rt generic sdks f target dflt kind
      = f ++ umbrella_header kind
          ++ (generic.map (fun r => dirtree_text rt r target kind)).flatten
          ++ (sdks.map (sdk_guard_text kind)).flatten
          ++ default_guard_text kind dflt
          ++ s_close := by
  simp only [write_main_spec]
  rw [generic_dirtree_fold, sdk_guard_fold]
  cases dflt <;> simp [default_guard_text, umbrella_header, List.append_assoc]

/-- C6: in each umbrella block the parts appear in exactly this relative
order: the header, then the inline-expanded directory lists of the generic
roots in scan order, then one guard group per SDK root in the SDK
collection's enumeration order (each group's reference guarded by a flag
testing that root's canonical key), then — only when a default SDK was
resolved — a single fallback reference guarded by the user requesting no
SDK, and finally the closing brace. -/
theorem umbrella_block_order (rt : List Char → List (List Char))
    (generic sdks : List Root) (f : List Char) (target : Option (List Char))
    (dflt : Option Root) (kind : SubKind) :
    write_main_spec rt generic sdks f target dflt kind
      = f ++ umbrella_header kind
          ++ (generic.map (fun r => dirtree_text rt r target kind)).flatten
          ++ (sdks.map (sdk_guard_text kind)).flatten
          ++ default_guard_text kind dflt
          ++ s_close :=
  write_main_spec_decomp rt generic sdks f target dflt kind

/-- C7: for an SDK root whose canonical key is all decimal digits the
umbrella block carries two guarded references — the plain one and a
duplicate that also accepts the key followed by `".0"` — and for a key with
any non-digit character it carries exactly the single plain guarded
reference. -/
theorem digit_key_dot_zero_guard (rt : List Char → List (List Char))
    (f : List Char) (target : Option (List Char)) (kind : SubKind) (p k : List Char) :
    (all_digits k = true →
      write_main_spec rt [] [mk_sdk p k] f target none kind
        = f ++ umbrella_header kind
            ++ (s_guard_open ++ k ++ s_guard_mid ++ spec_name kind ++ s_sdk_us
                 ++ k ++ s_guard_close)
            ++ (s_guard_open ++ k ++ s_guard_mid0 ++ spec_name kind ++ s_sdk_us
                 ++ k ++ s_guard_close)
            ++ s_close)
    ∧ (all_digits k = false →
      write_main_spec rt [] [mk_sdk p k] f target none kind
        = f ++ umbrella_header kind
            ++ (s_guard_open ++ k ++ s_guard_mid ++ spec_name kind ++ s_sdk_us
                 ++ k ++ s_guard_close)
            ++ s_close) := by
  have hk : keyD (mk_sdk p k) = k := rfl
  constructor <;> intro h <;>
    simp [write_main_spec, umbrella_header, hk, h, List.append_assoc]

/-- Witness for C7 at the all-digit key 35 and the non-digit key 3.5. -/
theorem digit_key_dot_zero_guard_witness :
    (all_digits k35 = true
      ∧ write_main_spec (fun _ => ([] : List (List Char))) [] [mk_sdk k35 k35] [] none none .inc
          = [] ++ umbrella_header .inc
              ++ (s_guard_open ++ k35 ++ s_guard_mid ++ spec_name .inc ++ s_sdk_us
                   ++ k35 ++ s_guard_close)
              ++ (s_guard_open ++ k35 ++ s_guard_mid0 ++ spec_name .inc ++ s_sdk_us
                   ++ k35 ++ s_guard_close)
              ++ s_close)
    ∧ (all_digits k3dot5 = false
      ∧ write_main_spec (fun _ => ([] : List (List Char))) [] [mk_sdk k3dot5 k3dot5] [] none
            none .inc
          = [] ++ umbrella_header .inc
              ++ (s_guard_open ++ k3dot5 ++ s_guard_mid ++ spec_name .inc ++ s_sdk_us
                   ++ k3dot5 ++ s_guard_close)
              ++ s_close) :=
  ⟨⟨by decide,
    (digit_key_dot_zero_guard (fun _ => ([] : List (List Char))) [] none .inc k35 k35).1
      (by decide)⟩,
   ⟨by decide,
    (digit_key_dot_zero_guard (fun _ => ([] : List (List Char))) [] none .inc k3dot5
        k3dot5).2 (by decide)⟩⟩

/-! ### Head insertion and reverse-chronological enumeration -/

lemma scan_entry_rec_fst (fs : FS) (base : List Char) (p : ScanState × List Root)
    (e : List Char) :
    (scan_entry_rec fs base p e).1 = scan_entry fs base p.1 e := by
  simp only [scan_entry_rec, scan_entry]
  by_cases hc : (c_matches s_sdkdash e && fs.isDir (joinPath base e)) = true
  case neg => simp [hc]
  simp only [hc, if_true]
  cases hf : find p.1.sdk_root_list (some (canonical_key e)) with
  | some _ => rfl
  | none =>
      by_cases hi : (make_root fs (joinPath base e)).subInc.isSome = true <;> simp [hi]

lemma entries_rec_fst (fs : FS) (base : List Char) (es : List (List Char)) :
    ∀ p : ScanState × List Root,
      (es.foldl (scan_entry_rec fs base) p).1 = es.foldl (scan_entry fs base) p.1 := by
  induction es with
  | nil => intro p; rfl
  | cons e es ih =>
      intro p
      simp only [List.foldl_cons, ih, scan_entry_rec_fst]

lemma analyze_rec_fst (fs : FS) (base : List Char) (p : ScanState × List Root) :
    (analyze_palmdev_tree_rec fs base p).1 = analyze_palmdev_tree fs base p.1 := by
  simp only [analyze_palmdev_tree_rec, analyze_palmdev_tree]
  cases hl : fs.listing base with
  | none => rfl
  | some entries =>
      by_cases hg : ((make_root fs base).subInc.isSome
          || (make_root fs base).subLib.isSome) = true <;>
        simp [hg, entries_rec_fst]

lemma analyze_many_rec_fst (fs : FS) (bases : List (List Char)) :
    ∀ p : ScanState × List Root,
      (analyze_many_rec fs bases p).1 = analyze_many fs bases p.1 := by
  induction bases with
  | nil => intro p; rfl
  | cons b bs ih =>
      intro p
      simp only [analyze_many_rec, analyze_many, List.foldl_cons] at *
      rw [ih, analyze_rec_fst]

lemma scan_entry_rec_log (fs : FS) (base : List Char) (p : ScanState × List Root)
    (e : List Char) (init : List Root)
    (h : p.1.sdk_root_list = p.2.reverse ++ init) :
    (scan_entry_rec fs base p e).1.sdk_root_list
      = (scan_entry_rec fs base p e).2.reverse ++ init := by
  simp only [scan_entry_rec]
  by_cases hc : (c_matches s_sdkdash e && fs.isDir (joinPath base e)) = true
  case neg => simpa [hc] using h
  simp only [hc, if_true]
  cases hf : find p.1.sdk_root_list (some (canonical_key e)) with
  | some _ => exact h
  | none =>
      by_cases hi : (make_root fs (joinPath base e)).subInc.isSome = true
      · simp [hi, h, List.reverse_append]
      · simpa [hi] using h

lemma entries_rec_log (fs : FS) (base : List Char) (es : List (List Char)) :
    ∀ (p : ScanState × List Root) (init : List Root),
      p.1.sdk_root_list = p.2.reverse ++ init →
      (es.foldl (scan_entry_rec fs base) p).1.sdk_root_list
        = (es.foldl (scan_entry_rec fs base) p).2.reverse ++ init := by
  induction es with
  | nil => intro p init h; exact h
  | cons e es ih =>
      intro p init h
      simp only [List.foldl_cons]
      exact ih (scan_entry_rec fs base p e) init (scan_entry_rec_log fs base p e init h)

lemma analyze_rec_log (fs : FS) (base : List Char) (p : ScanState × List Root)
    (init : List Root) (h : p.1.sdk_root_list = p.2.reverse ++ init) :
    (analyze_palmdev_tree_rec fs base p).1.sdk_root_list
      = (analyze_palmdev_tree_rec fs base p).2.reverse ++ init := by
  simp only [analyze_palmdev_tree_rec]
  cases hl : fs.listing base with
  | none => exact h
  | some entries =>
      have he := entries_rec_log fs base entries p init h
      by_cases hg : ((make_root fs base).subInc.isSome
          || (make_root fs base).subLib.isSome) = true <;>
        simpa [hg] using he

lemma analyze_many_rec_log (fs : FS) (bases : List (List Char)) :
    ∀ (p : ScanState × List Root) (init : List Root),
      p.1.sdk_root_list = p.2.reverse ++ init →
      (analyze_many_rec fs bases p).1.sdk_root_list
        = (analyze_many_rec fs bases p).2.reverse ++ init := by
  induction bases with
  | nil => intro p init h; exact h
  | cons b bs ih =>
      intro p init h
      simp only [analyze_many_rec, List.foldl_cons] at *
      exact ih (analyze_palmdev_tree_rec fs b p) init (analyze_rec_log fs b p init h)

/-- `write_sdk_spec` only ever appends to the file it is given. -/
lemma write_sdk_spec_append (rt : List Char → List (List Char)) (f : List Char)
    (sdk : Root) (target : Option (List Char)) (kind : SubKind) :
    write_sdk_spec rt f sdk target kind = f ++ write_sdk_spec rt [] sdk target kind := by
  simp only [write_sdk_spec]
  rw [write_dirtree_append, write_dirtree_append]
  simp [List.append_assoc]

/-- `write_main_spec` only ever appends to the file it is given. -/
lemma write_main_spec_append (rt : List Char → List (List Char))
    (generic sdks : List Root) (f : List Char) (target : Option (List Char))
    (dflt : Option Root) (kind : SubKind) :
    write_main_spec rt generic sdks f target dflt kind
      = f ++ write_main_spec rt generic sdks [] target dflt kind := by
  rw [write_main_spec_decomp, write_main_spec_decomp]
  simp [List.append_assoc]

/-- How the whole specs file decomposes: the two named blocks of each SDK
root, in `sdk_root_list` order, then the two umbrella blocks. -/
lemma write_specs_decomp (rt : List Char → List (List Char)) (generic sdks : List Root)
    (f target : List Char) (dflt : Option Root) :
    write_specs rt generic sdks f target dflt
      = f ++ (sdks.map (fun sdk => sdk_block_text rt sdk target)).flatten
          ++ write_main_spec rt generic sdks [] none dflt .inc
          ++ write_main_spec rt generic sdks [] (some target) dflt .lib := by
  simp only [write_specs]
  have hfold : ∀ (l : List Root) (f : List Char),
      l.foldl (fun f sdk =>
          write_sdk_spec rt (write_sdk_spec rt f sdk none .inc) sdk (some target) .lib) f
        = f ++ (l.map (fun sdk => sdk_block_text rt sdk target)).flatten := by
    intro l
    induction l with
    | nil => intro f; simp
    | cons x xs ih =>
        intro f
        simp only [List.foldl_cons, List.map_cons, List.flatten_cons]
        rw [ih, write_sdk_spec_append rt (write_sdk_spec rt f x none .inc),
          write_sdk_spec_append rt f x none .inc]
        simp [sdk_block_text, List.append_assoc]
  rw [hfold, write_main_spec_append, write_main_spec_append]

/-- C10: `sdk_root_list` is built by head insertion, so after any run of
scans it equals the reverse of the chronological insertion log; and both
writers enumerate it in plain list order — `write_specs` emits the named
block pairs and `write_main_spec` the guard groups as joins over
`sdk_root_list` in that order — so every enumeration visits SDK roots in
exactly the reverse of their discovery order. -/
theorem sdk_collection_reverse_chronological (fs : FS) (bases : List (List Char))
    (st : ScanState) :
    (analyze_many_rec fs bases (st, [])).1 = analyze_many fs bases st
    ∧ (analyze_many fs bases st).sdk_root_list
        = (analyze_many_rec fs bases (st, [])).2.reverse ++ st.sdk_root_list
    ∧ (∀ (rt : List Char → List (List Char)) (generic sdks : List Root)
          (f target : List Char) (dflt : Option Root),
        write_specs rt generic sdks f target dflt
          = f ++ (sdks.map (fun sdk => sdk_block_text rt sdk target)).flatten
              ++ write_main_spec rt generic sdks [] none dflt .inc
              ++ write_main_spec rt generic sdks [] (some target) dflt .lib)
    ∧ (∀ (rt : List Char → List (List Char)) (generic sdks : List Root)
          (f : List Char) (target : Option (List Char)) (dflt : Option Root)
          (kind : SubKind),
        write_main_spec rt generic sdks f target dflt kind
          = f ++ umbrella_header kind
              ++ (generic.map (fun r => dirtree_text rt r target kind)).flatten
              ++ (sdks.map (sdk_guard_text kind)).flatten
              ++ default_guard_text kind dflt
              ++ s_close) := by
  have h1 := analyze_many_rec_fst fs bases (st, [])
  refine ⟨h1, ?_, fun rt generic sdks f target dflt =>
      write_specs_decomp rt generic sdks f target dflt,
    fun rt generic sdks f target dflt kind =>
      write_main_spec_decomp rt generic sdks f target dflt kind⟩
  have h2 := analyze_many_rec_log fs bases (st, []) st.sdk_root_list (by simp)
  rw [← h1]
  exact h2

/-! ### Path construction has no length check -/

/-- C9 (observation for the code bug): the source `make_root` formats its
path with `vsprintf` into a fixed `char[FILENAME_MAX]` buffer and contains
no length test of any kind, so the embedding — faithful to that control
flow — constructs a root carrying the full formatted path for inputs of
every length, including one of 5000 characters; there is no `PathTooLong`
error path that could abort construction. -/
theorem make_root_unchecked_path (fs : FS) (path : List Char) :
    (make_root fs path).rootPath = path
    ∧ (make_root fsC9 (List.replicate 5000 'a')).rootPath.length = 5000 :=
  ⟨rfl, (List.length_replicate 5000 'a' : (List.replicate 5000 'a').length = 5000)⟩

end PalmdevPrep
